import Mathlib

/-!
Verification development for the autoshorts pipeline (autoshorts_daily.py).

The definitions below are a shallow embedding of the core algorithms of the
source file: the fixed-cadence b-roll carousel scheduler
(build_broll_timeline), the content novelty filter (_novelty_ok and its
helpers), the persisted-fingerprint recording, the entity cooldown check
(_entity_in_cooldown), the clip pool builder (_rank_and_dedup and
build_pexels_pool), and the pool/download abort logic of main.

Machine floats of the source are modelled by rationals, Python dicts by
association lists or Finsets, and the seeded pseudo-random generator by an
abstract index stream rng : Nat -> Nat (one draw per slot; rnd.choice of a
list cs is modelled as cs.get? (rng i % cs.length), which returns none
exactly when Python would raise IndexError on an empty sequence).
-/

namespace Autoshorts

/-- Errors raised by build_broll_timeline: the two explicit RuntimeErrors of
the source and the IndexError that rnd.choice raises on an empty sequence. -/
inductive CarouselError where
  | tooSmall
  | noClips
  | emptyChoice
deriving DecidableEq, Repr

/-- Adjacency predicate of the candidate filter: in the source,
(not seq or vid != seq[-1]). -/
def adjOk (seq : List ℤ) (vid : ℤ) : Bool :=
  match seq.getLast? with
  | none => true
  | some l => decide (vid ≠ l)

/-- Candidate list for one slot. The primary filter keeps clips that satisfy
both the adjacency constraint and the usage cap; if it is empty the source
recomputes the list dropping only the usage cap (the adjacency filter is kept,
per the source comment at the relaxation site). The running usage counter
use_count of the source always equals the count of the clip in the sequence
built so far, since every pick is appended to seq and counted. -/
def slotChoices (ids : List ℤ) (maxUses : ℕ) (seq : List ℤ) : List ℤ :=
  if (ids.filter (fun vid => adjOk seq vid && decide (seq.count vid < maxUses))).isEmpty then
    ids.filter (fun vid => adjOk seq vid)
  else
    ids.filter (fun vid => adjOk seq vid && decide (seq.count vid < maxUses))

/-- One slot pick: rnd.choice over the candidate list, modelled by an
abstract index stream; none models the IndexError on an empty list. -/
def pickSlot (ids : List ℤ) (maxUses : ℕ) (rng : ℕ → ℕ) (i : ℕ) (seq : List ℤ) : Option ℤ :=
  (slotChoices ids maxUses seq).get? (rng i % (slotChoices ids maxUses seq).length)

/-- The slot loop of build_broll_timeline: n remaining slots, i the current
slot index, seq the sequence of clip ids chosen so far. -/
def buildSeqAux (ids : List ℤ) (maxUses : ℕ) (rng : ℕ → ℕ) : ℕ → ℕ → List ℤ → Option (List ℤ)
  | 0, _, seq => some seq
  | n + 1, i, seq =>
    match pickSlot ids maxUses rng i seq with
    | none => none
    | some v => buildSeqAux ids maxUses rng n (i + 1) (seq ++ [v])

/-- Slot count: max(1, ceil(total_sec / max(1.0, BROLL_SWITCH_SEC))). -/
def carouselSlots (switchSec totalSec : ℚ) : ℕ :=
  max 1 (Int.toNat ⌈totalSec / max 1 switchSec⌉)

/-- Duration of slot i out of n: the switch length for every slot but the
last, and max(0.5, total - switch * (n - 1)) for the last slot. -/
def slotDur (switchSec totalSec : ℚ) (n i : ℕ) : ℚ :=
  if i < n - 1 then switchSec else max (1 / 2) (totalSec - switchSec * ((n : ℚ) - 1))

/-- Shallow embedding of build_broll_timeline. The configuration constants
BROLL_SWITCH_SEC and PEXELS_MAX_USES_PER_CLIP are passed as parameters
(switchSec, maxUses), the downloaded-clip pool as its key list ids, and the
seeded generator as rng. The result pairs the chosen id sequence with the
per-slot durations handed to the segment renderer. -/
def broll_timeline (switchSec : ℚ) (maxUses : ℕ) (rng : ℕ → ℕ) (totalSec : ℚ)
    (ids : List ℤ) : Except CarouselError (List ℤ × List ℚ) :=
  if totalSec ≤ 1 / 10 then Except.error CarouselError.tooSmall
  else if ids.isEmpty then Except.error CarouselError.noClips
  else
    match buildSeqAux ids maxUses rng (carouselSlots switchSec totalSec) 0 [] with
    | none => Except.error CarouselError.emptyChoice
    | some seq =>
        Except.ok (seq, (List.range seq.length).map (slotDur switchSec totalSec seq.length))

/-- The default TARGET_FPS of the source (frame tolerance 1/25 s). -/
def TARGET_FPS : ℚ := 25

/-- Equality of Except values is decidable componentwise. -/
instance {ε α : Type} [DecidableEq ε] [DecidableEq α] : DecidableEq (Except ε α)
  | Except.error e, Except.error f =>
      if h : e = f then isTrue (by rw [h]) else isFalse (by intro hc; cases hc; exact h rfl)
  | Except.error _, Except.ok _ => isFalse (by intro hc; cases hc)
  | Except.ok _, Except.error _ => isFalse (by intro hc; cases hc)
  | Except.ok a, Except.ok b =>
      if h : a = b then isTrue (by rw [h]) else isFalse (by intro hc; cases hc; exact h rfl)

/-- Evaluation helper for the slot count. -/
lemma carouselSlots_eq {switchSec totalSec : ℚ} {m : ℕ}
    (h : ⌈totalSec / max 1 switchSec⌉ = (m : ℤ)) (hm : 1 ≤ m) :
    carouselSlots switchSec totalSec = m := by
  simp only [carouselSlots, h, Int.toNat_natCast]
  omega

/-- Evaluation helper: a successful carousel run, split into the rational
side conditions and the integer-only slot loop. -/
lemma broll_timeline_eval {switchSec : ℚ} {maxUses : ℕ} {rng : ℕ → ℕ} {totalSec : ℚ}
    {ids : List ℤ} {n : ℕ} {seq : List ℤ} {durs : List ℚ}
    (h1 : ¬ totalSec ≤ 1 / 10) (h2 : ids.isEmpty = false)
    (hn : carouselSlots switchSec totalSec = n)
    (hs : buildSeqAux ids maxUses rng n 0 [] = some seq)
    (hd : (List.range seq.length).map (slotDur switchSec totalSec seq.length) = durs) :
    broll_timeline switchSec maxUses rng totalSec ids = Except.ok (seq, durs) := by
  simp only [broll_timeline, if_neg h1, h2, Bool.false_eq_true, if_false, hn, hs, hd]

/-- Evaluation helper: a carousel run that hits an empty candidate list. -/
lemma broll_timeline_eval_err {switchSec : ℚ} {maxUses : ℕ} {rng : ℕ → ℕ} {totalSec : ℚ}
    {ids : List ℤ} {n : ℕ}
    (h1 : ¬ totalSec ≤ 1 / 10) (h2 : ids.isEmpty = false)
    (hn : carouselSlots switchSec totalSec = n)
    (hs : buildSeqAux ids maxUses rng n 0 [] = none) :
    broll_timeline switchSec maxUses rng totalSec ids = Except.error CarouselError.emptyChoice := by
  simp only [broll_timeline, if_neg h1, h2, Bool.false_eq_true, if_false, hn, hs]

/-- Every candidate offered for a slot is a pool clip that satisfies the
no-immediate-repeat filter (both the primary and the relaxed candidate list
are filtered by adjOk). -/
lemma mem_slotChoices {ids : List ℤ} {maxUses : ℕ} {seq : List ℤ} {v : ℤ}
    (h : v ∈ slotChoices ids maxUses seq) : v ∈ ids ∧ adjOk seq v = true := by
  unfold slotChoices at h
  split at h
  · exact ⟨(List.mem_filter.mp h).1, (List.mem_filter.mp h).2⟩
  · refine ⟨(List.mem_filter.mp h).1, ?_⟩
    have hb := (List.mem_filter.mp h).2
    simp only [Bool.and_eq_true] at hb
    exact hb.1

/-- When the primary filter is non-empty, the candidate list is the primary
filter, so the offered clip also satisfies the usage cap. -/
lemma mem_slotChoices_primary {ids : List ℤ} {maxUses : ℕ} {seq : List ℤ} {v : ℤ}
    (hne : ¬ (ids.filter
      (fun vid => adjOk seq vid && decide (seq.count vid < maxUses))).isEmpty)
    (h : v ∈ slotChoices ids maxUses seq) : seq.count v < maxUses := by
  unfold slotChoices at h
  rw [if_neg hne] at h
  have hb := (List.mem_filter.mp h).2
  simp only [Bool.and_eq_true] at hb
  exact of_decide_eq_true hb.2

/-- A successful pick is a member of the candidate list. -/
lemma pickSlot_mem {ids : List ℤ} {maxUses : ℕ} {rng : ℕ → ℕ} {i : ℕ} {seq : List ℤ} {v : ℤ}
    (h : pickSlot ids maxUses rng i seq = some v) : v ∈ slotChoices ids maxUses seq := by
  unfold pickSlot at h
  exact List.get?_mem h

/-- A successful pick never repeats the immediately preceding clip. -/
lemma pickSlot_adj {ids : List ℤ} {maxUses : ℕ} {rng : ℕ → ℕ} {i : ℕ} {seq : List ℤ} {v l : ℤ}
    (h : pickSlot ids maxUses rng i seq = some v) (hl : seq.getLast? = some l) : v ≠ l := by
  have hadj := (mem_slotChoices (pickSlot_mem h)).2
  unfold adjOk at hadj
  rw [hl] at hadj
  exact of_decide_eq_true hadj

/-- With at least two distinct clips in the pool, the adjacency filter alone
never empties the pool. -/
lemma filter_adj_ne_nil {ids : List ℤ} {seq : List ℤ}
    (hnd : ids.Nodup) (h2 : 2 ≤ ids.length) :
    ids.filter (fun vid => adjOk seq vid) ≠ [] := by
  match ids, hnd, h2 with
  | a :: b :: t, hnd, _ =>
    intro hf
    have hab : a ≠ b := by
      have := (List.nodup_cons.mp hnd).1
      intro hc
      exact this (hc ▸ List.mem_cons_self b t)
    have hall := List.filter_eq_nil_iff.mp hf
    cases hl : seq.getLast? with
    | none =>
      refine hall a (List.mem_cons_self a (b :: t)) ?_
      unfold adjOk
      rw [hl]
    | some l =>
      rcases hab.ne_or_ne l with hx | hx
      · refine hall a (List.mem_cons_self a (b :: t)) ?_
        unfold adjOk
        rw [hl]
        exact decide_eq_true hx
      · refine hall b (List.mem_cons_of_mem a (List.mem_cons_self b t)) ?_
        unfold adjOk
        rw [hl]
        exact decide_eq_true hx

/-- With at least two distinct clips the candidate list is never empty. -/
lemma slotChoices_ne_nil {ids : List ℤ} {maxUses : ℕ} {seq : List ℤ}
    (hnd : ids.Nodup) (h2 : 2 ≤ ids.length) :
    slotChoices ids maxUses seq ≠ [] := by
  unfold slotChoices
  split
  · exact filter_adj_ne_nil hnd h2
  · intro hc
    rename_i hne
    exact hne (by rw [hc]; rfl)

/-- A non-empty candidate list always yields a pick (rnd.choice succeeds). -/
lemma pickSlot_isSome {ids : List ℤ} {maxUses : ℕ} (rng : ℕ → ℕ) (i : ℕ) {seq : List ℤ}
    (h : slotChoices ids maxUses seq ≠ []) : ∃ v, pickSlot ids maxUses rng i seq = some v := by
  unfold pickSlot
  cases o : (slotChoices ids maxUses seq).get? (rng i % (slotChoices ids maxUses seq).length) with
  | some v => exact ⟨v, rfl⟩
  | none =>
    have hlen : 0 < (slotChoices ids maxUses seq).length := List.length_pos.mpr h
    have h1 := List.get?_eq_none.mp o
    have h2 := Nat.mod_lt (rng i) hlen
    omega

/-- A finished slot loop adds exactly one pick per slot. -/
lemma buildSeqAux_some_length {ids : List ℤ} {maxUses : ℕ} {rng : ℕ → ℕ} :
    ∀ {n i : ℕ} {seq out : List ℤ}, buildSeqAux ids maxUses rng n i seq = some out →
      out.length = seq.length + n := by
  intro n
  induction n with
  | zero =>
    intro i seq out h
    cases h
    rfl
  | succ m ih =>
    intro i seq out h
    unfold buildSeqAux at h
    cases hp : pickSlot ids maxUses rng i seq with
    | none => rw [hp] at h; cases h
    | some v =>
      rw [hp] at h
      have := ih h
      simp only [List.length_append, List.length_cons, List.length_nil] at this
      omega

/-- With at least two distinct clips the slot loop always terminates
normally. -/
lemma buildSeqAux_total {ids : List ℤ} (maxUses : ℕ) (rng : ℕ → ℕ)
    (hnd : ids.Nodup) (h2 : 2 ≤ ids.length) :
    ∀ (n i : ℕ) (seq : List ℤ), ∃ out, buildSeqAux ids maxUses rng n i seq = some out := by
  intro n
  induction n with
  | zero => exact fun i seq => ⟨seq, rfl⟩
  | succ m ih =>
    intro i seq
    obtain ⟨v, hv⟩ := pickSlot_isSome rng i (slotChoices_ne_nil hnd h2)
    obtain ⟨out, hout⟩ := ih (i + 1) (seq ++ [v])
    exact ⟨out, by unfold buildSeqAux; rw [hv]; exact hout⟩

/-- The slot loop preserves the no-immediate-repeat invariant. -/
lemma buildSeqAux_chain {ids : List ℤ} {maxUses : ℕ} {rng : ℕ → ℕ} :
    ∀ {n i : ℕ} {seq out : List ℤ}, seq.Chain' (· ≠ ·) →
      buildSeqAux ids maxUses rng n i seq = some out → out.Chain' (· ≠ ·) := by
  intro n
  induction n with
  | zero =>
    intro i seq out hc h
    cases h
    exact hc
  | succ m ih =>
    intro i seq out hc h
    unfold buildSeqAux at h
    cases hp : pickSlot ids maxUses rng i seq with
    | none => rw [hp] at h; cases h
    | some v =>
      rw [hp] at h
      refine ih ?_ h
      refine List.chain'_append.mpr ⟨hc, List.chain'_singleton v, ?_⟩
      intro x hx y hy
      simp only [List.head?_cons, Option.mem_def, Option.some.injEq] at hy
      subst hy
      exact fun hxy => (pickSlot_adj hp hx) hxy.symm

/-- If the primary filter (usage cap plus adjacency) is empty, then every
pool clip other than the immediately preceding one is already at the usage
cap, so the sequence built so far holds at least
(pool size - 1) * cap + 1 picks. -/
lemma length_ge_of_primary_empty {ids : List ℤ} {maxUses : ℕ} {seq : List ℤ}
    (hnd : ids.Nodup) (hne : ids ≠ []) (hk : 1 ≤ maxUses)
    (hsub : ∀ x ∈ seq, x ∈ ids)
    (hempty : ids.filter (fun vid => adjOk seq vid && decide (seq.count vid < maxUses)) = []) :
    (ids.length - 1) * maxUses + 1 ≤ seq.length := by
  have hall : ∀ vid ∈ ids, ¬ (adjOk seq vid = true ∧ seq.count vid < maxUses) := by
    intro vid hvid hc
    have := List.filter_eq_nil_iff.mp hempty vid hvid
    rw [Bool.and_eq_true] at this
    exact this ⟨hc.1, decide_eq_true hc.2⟩
  cases hseq : seq with
  | nil =>
    obtain ⟨a, ha⟩ := List.exists_mem_of_ne_nil ids hne
    subst hseq
    exact absurd ⟨rfl, hk⟩ (hall a ha)
  | cons c cs =>
    rw [← hseq]
    have hs_ne : seq ≠ [] := by rw [hseq]; exact List.cons_ne_nil c cs
    set l := seq.getLast hs_ne with hl_def
    have hl? : seq.getLast? = some l := List.getLast?_eq_getLast seq hs_ne
    have hl_mem : l ∈ seq := List.getLast_mem hs_ne
    have hl_ids : l ∈ ids := hsub l hl_mem
    have hcap : ∀ vid ∈ ids, vid ≠ l → maxUses ≤ seq.count vid := by
      intro vid hvid hne'
      by_contra hlt
      refine hall vid hvid ⟨?_, by omega⟩
      unfold adjOk
      rw [hl?]
      exact decide_eq_true hne'
    have hlen_sum : seq.length = ∑ a ∈ ids.toFinset, seq.count a := by
      have h1 : seq.length = ∑ a ∈ seq.toFinset, seq.count a := by
        simp [Multiset.toFinset, Multiset.coe_count]
      rw [h1]
      refine Finset.sum_subset ?_ ?_
      · intro a ha
        exact List.mem_toFinset.mpr (hsub a (List.mem_toFinset.mp ha))
      · intro a _ ha
        exact List.count_eq_zero.mpr (fun hc => ha (List.mem_toFinset.mpr hc))
    have hsplit : seq.count l + ∑ a ∈ ids.toFinset.erase l, seq.count a
        = ∑ a ∈ ids.toFinset, seq.count a :=
      Finset.add_sum_erase ids.toFinset (fun a => seq.count a) (List.mem_toFinset.mpr hl_ids)
    have hone : 1 ≤ seq.count l := List.count_pos_iff.mpr hl_mem
    have hcard : (ids.toFinset.erase l).card = ids.length - 1 := by
      rw [Finset.card_erase_of_mem (List.mem_toFinset.mpr hl_ids),
        List.toFinset_card_of_nodup hnd]
    have hrest : (ids.toFinset.erase l).card * maxUses ≤ ∑ a ∈ ids.toFinset.erase l, seq.count a := by
      have := Finset.card_nsmul_le_sum (ids.toFinset.erase l) (fun a => seq.count a) maxUses ?_
      · simpa [smul_eq_mul] using this
      · intro x hx
        have hx' := Finset.mem_erase.mp hx
        exact hcap x (List.mem_toFinset.mp hx'.2) hx'.1
    rw [hcard] at hrest
    omega

/-- As long as the slot count stays at most (pool size - 1) * cap + 1, the
relaxation branch never fires and no clip exceeds the usage cap. -/
lemma buildSeqAux_count_le {ids : List ℤ} {maxUses : ℕ} {rng : ℕ → ℕ}
    (hnd : ids.Nodup) (hne : ids ≠ []) (hk : 1 ≤ maxUses) :
    ∀ {n i : ℕ} {seq out : List ℤ}, (∀ x ∈ seq, x ∈ ids) → (∀ v, seq.count v ≤ maxUses) →
      seq.length + n ≤ (ids.length - 1) * maxUses + 1 →
      buildSeqAux ids maxUses rng n i seq = some out → ∀ v, out.count v ≤ maxUses := by
  intro n
  induction n with
  | zero =>
    intro i seq out _ hcnt _ h
    cases h
    exact hcnt
  | succ m ih =>
    intro i seq out hsub hcnt hbound h
    unfold buildSeqAux at h
    cases hp : pickSlot ids maxUses rng i seq with
    | none => rw [hp] at h; cases h
    | some v =>
      rw [hp] at h
      by_cases hP : ids.filter (fun vid => adjOk seq vid && decide (seq.count vid < maxUses)) = []
      · have := length_ge_of_primary_empty hnd hne hk hsub hP
        omega
      · have hPne : ¬ (ids.filter
            (fun vid => adjOk seq vid && decide (seq.count vid < maxUses))).isEmpty := by
          intro hc
          exact hP (List.isEmpty_iff.mp hc)
        have hvcnt : seq.count v < maxUses := mem_slotChoices_primary hPne (pickSlot_mem hp)
        have hvid : v ∈ ids := (mem_slotChoices (pickSlot_mem hp)).1
        refine ih ?_ ?_ ?_ h
        · intro x hx
          rcases List.mem_append.mp hx with hx | hx
          · exact hsub x hx
          · rw [List.mem_singleton.mp hx]
            exact hvid
        · intro w
          rw [List.count_append]
          rcases eq_or_ne w v with hw | hw
          · subst hw
            have h1 : List.count w [w] = 1 := by simp
            rw [h1]
            omega
          · have h1 : List.count w [v] = 0 := by simp [hw]
            rw [h1]
            have := hcnt w
            omega
        · simp only [List.length_append, List.length_singleton]
          omega

/-- Inversion of a successful carousel run. -/
lemma broll_timeline_ok_inv {switchSec : ℚ} {maxUses : ℕ} {rng : ℕ → ℕ} {totalSec : ℚ}
    {ids seq : List ℤ} {durs : List ℚ}
    (h : broll_timeline switchSec maxUses rng totalSec ids = Except.ok (seq, durs)) :
    ids ≠ [] ∧
      buildSeqAux ids maxUses rng (carouselSlots switchSec totalSec) 0 [] = some seq ∧
      durs = (List.range seq.length).map (slotDur switchSec totalSec seq.length) := by
  unfold broll_timeline at h
  split at h
  · cases h
  · split at h
    · cases h
    · rename_i hne
      cases hb : buildSeqAux ids maxUses rng (carouselSlots switchSec totalSec) 0 [] with
      | none => rw [hb] at h; cases h
      | some s =>
        rw [hb] at h
        have h' : s = seq ∧ (List.range s.length).map (slotDur switchSec totalSec s.length) = durs := by
          simpa using h
        obtain ⟨h1, h2⟩ := h'
        subst h1
        exact ⟨fun hc => hne (by rw [hc]; rfl), rfl, h2.symm⟩

/-- The durations of an n-slot carousel sum to
switch * (n - 1) + max(0.5, total - switch * (n - 1)). -/
lemma durations_sum (switchSec totalSec : ℚ) {n : ℕ} (hn : 1 ≤ n) :
    ((List.range n).map (slotDur switchSec totalSec n)).sum
      = switchSec * ((n : ℚ) - 1) + max (1 / 2) (totalSec - switchSec * ((n : ℚ) - 1)) := by
  obtain ⟨m, rfl⟩ : ∃ m, n = m + 1 := ⟨n - 1, by omega⟩
  rw [List.range_succ, List.map_append, List.sum_append]
  have h1 : (List.range m).map (slotDur switchSec totalSec (m + 1))
      = List.replicate m switchSec := by
    refine List.eq_replicate_iff.mpr ⟨by simp, ?_⟩
    intro b hb
    obtain ⟨i, hi, rfl⟩ := List.mem_map.mp hb
    have : i < m := List.mem_range.mp hi
    unfold slotDur
    rw [if_pos (by omega)]
  have h2 : slotDur switchSec totalSec (m + 1) m
      = max (1 / 2) (totalSec - switchSec * (m : ℚ)) := by
    unfold slotDur
    rw [if_neg (by omega)]
    congr 1
    push_cast
    ring
  rw [h1, List.sum_replicate, nsmul_eq_mul]
  simp only [List.map_cons, List.map_nil, List.sum_cons, List.sum_nil, add_zero, h2]
  rw [show ((m + 1 : ℕ) : ℚ) - 1 = (m : ℚ) by push_cast; ring]
  ring

/-- C1: the claim says the carousel scheduler returns normally for every
non-empty pool and positive duration, in particular completing a 5-slot
carousel over a single-clip pool by reusing the clip five times. The code
contradicts this: with a single downloaded clip (pool [7]) and a total
duration of 25 s (5 slots of 5 s), the relaxation branch keeps the
no-immediate-repeat filter, the candidate list for the second slot is empty,
and rnd.choice raises IndexError - for every random seed. -/
theorem C1_single_clip_pool_raises (rng : ℕ → ℕ) :
    broll_timeline 5 3 rng 25 [7] = Except.error CarouselError.emptyChoice := by
  refine broll_timeline_eval_err (n := 5) (by norm_num) rfl
    (carouselSlots_eq (by norm_num [Int.ceil_eq_iff]) (by norm_num)) ?_
  have h0 : pickSlot [7] 3 rng 0 [] = some 7 := by
    unfold pickSlot
    have hc : slotChoices [7] 3 [] = [7] := rfl
    rw [hc]
    simp [Nat.mod_one]
  have h1 : pickSlot [7] 3 rng 1 [7] = none := by
    unfold pickSlot
    have hc : slotChoices [7] 3 [7] = [] := rfl
    rw [hc]
    rfl
  show buildSeqAux [7] 3 rng 5 0 [] = none
  simp only [buildSeqAux, List.nil_append, Nat.zero_add, h0, h1]

/-- C2 counterexample: with a two-clip pool, cap 1 and three slots, every
run relaxes the usage cap (never the adjacency constraint) at the third
slot, so clip 1 is used twice: the usage cap is silently exceeded although
the pool holds two clips, contradicting the claim. -/
theorem C2_counterexample :
    broll_timeline 5 1 (fun _ => 0) 15 [1, 2] = Except.ok ([1, 2, 1], [5, 5, 5]) ∧
      2 ≤ ([1, 2] : List ℤ).length ∧ 1 < List.count (1 : ℤ) [1, 2, 1] := by
  refine ⟨?_, by norm_num, by decide⟩
  refine broll_timeline_eval (n := 3) (by norm_num) rfl
    (carouselSlots_eq (by norm_num [Int.ceil_eq_iff]) (by norm_num)) (by decide) ?_
  norm_num [slotDur, List.range_succ, max_def]

/-- C2 amended: whenever no clip satisfies both the usage cap and the
no-immediate-repeat constraint, the scheduler relaxes the usage cap and
keeps the adjacency constraint (the reverse of the claimed order): every
pick differs from the immediately preceding clip, and the pick respects the
usage cap whenever some pool clip satisfies both constraints. -/
theorem C2_cap_relaxed_not_adjacency (ids : List ℤ) (maxUses : ℕ) (rng : ℕ → ℕ) (i : ℕ)
    (seq : List ℤ) (v : ℤ) (h : pickSlot ids maxUses rng i seq = some v) :
    (∀ l, seq.getLast? = some l → v ≠ l) ∧
      ((∃ u ∈ ids, (∀ l, seq.getLast? = some l → u ≠ l) ∧ seq.count u < maxUses) →
        seq.count v < maxUses) := by
  constructor
  · exact fun l hl => pickSlot_adj h hl
  · rintro ⟨u, hu, hadj, hcnt⟩
    have hu0 : u ∈ ids.filter (fun vid => adjOk seq vid && decide (seq.count vid < maxUses)) := by
      refine List.mem_filter.mpr ⟨hu, ?_⟩
      rw [Bool.and_eq_true]
      refine ⟨?_, decide_eq_true hcnt⟩
      unfold adjOk
      cases hl : seq.getLast? with
      | none => rfl
      | some l => exact decide_eq_true (hadj l hl)
    have hne : ¬ (ids.filter
        (fun vid => adjOk seq vid && decide (seq.count vid < maxUses))).isEmpty := by
      intro hc
      rw [List.isEmpty_iff.mp hc] at hu0
      cases hu0
    exact mem_slotChoices_primary hne (pickSlot_mem h)

/-- C2 witness: the amended statement applied at one concrete slot. -/
theorem C2_cap_relaxed_not_adjacency_witness :
    (∀ l, ([] : List ℤ).getLast? = some l → (1 : ℤ) ≠ l) ∧
      ((∃ u ∈ ([1, 2] : List ℤ), (∀ l, ([] : List ℤ).getLast? = some l → u ≠ l) ∧
          List.count u ([] : List ℤ) < 1) → List.count (1 : ℤ) ([] : List ℤ) < 1) :=
  C2_cap_relaxed_not_adjacency [1, 2] 1 (fun _ => 0) 0 [] 1 (by decide)

/-- C3 counterexample: for total duration 5.05 s and a two-clip pool the
scheduler returns two slots of durations 5 and 0.5 (the last slot is padded
up to the 0.5 s minimum), so the timeline sums to 5.5 s, off by 0.45 s,
far beyond the 1/fps = 1/25 s tolerance of the claim. -/
theorem C3_counterexample :
    broll_timeline 5 3 (fun _ => 0) (101 / 20) [1, 2] = Except.ok ([1, 2], [5, 1 / 2]) ∧
      1 / TARGET_FPS < |([(5 : ℚ), 1 / 2].sum) - 101 / 20| := by
  constructor
  · refine broll_timeline_eval (n := 2) (by norm_num) rfl
      (carouselSlots_eq (by norm_num [Int.ceil_eq_iff]) (by norm_num)) (by decide) ?_
    norm_num [slotDur, List.range_succ, max_def]
  · rw [show ([(5 : ℚ), 1 / 2].sum) - 101 / 20 = 9 / 20 by norm_num]
    rw [abs_of_pos (by norm_num)]
    norm_num [TARGET_FPS]

/-- C3 amended: for any total duration above the 0.1 s guard and a pool of
at least two distinct clips, the scheduler returns a non-empty timeline
whose durations sum to switch * (slots - 1) + max(0.5, remainder); this
equals the requested total exactly when the final remainder is at least
0.5 s, and otherwise exceeds it by the padding of the last slot. -/
theorem C3_duration_sum (switchSec : ℚ) (maxUses : ℕ) (rng : ℕ → ℕ) (totalSec : ℚ)
    (ids : List ℤ) (h1 : 1 / 10 < totalSec) (hnd : ids.Nodup) (h2 : 2 ≤ ids.length) :
    ∃ seq durs, broll_timeline switchSec maxUses rng totalSec ids = Except.ok (seq, durs) ∧
      seq ≠ [] ∧
      durs.sum = switchSec * ((seq.length : ℚ) - 1)
        + max (1 / 2) (totalSec - switchSec * ((seq.length : ℚ) - 1)) ∧
      (1 / 2 ≤ totalSec - switchSec * ((seq.length : ℚ) - 1) → durs.sum = totalSec) := by
  have hne : ids.isEmpty = false := by
    cases ids with
    | nil => simp at h2
    | cons a t => rfl
  obtain ⟨seq, hs⟩ := buildSeqAux_total maxUses rng hnd h2
    (carouselSlots switchSec totalSec) 0 []
  have hlen : seq.length = carouselSlots switchSec totalSec := by
    have := buildSeqAux_some_length hs
    simpa using this
  have hpos : 1 ≤ seq.length := by
    rw [hlen]
    unfold carouselSlots
    omega
  refine ⟨seq, (List.range seq.length).map (slotDur switchSec totalSec seq.length), ?_, ?_, ?_, ?_⟩
  · simp only [broll_timeline, if_neg (not_le.mpr h1), hne, Bool.false_eq_true, if_false, hs]
  · intro hc
    rw [hc] at hpos
    simp at hpos
  · exact durations_sum switchSec totalSec hpos
  · intro hrem
    rw [durations_sum switchSec totalSec hpos, max_eq_right hrem]
    ring

/-- C3 witness: a concrete run (12 s over two clips) where the remainder is
at least 0.5 s and the durations sum to the requested total exactly. -/
theorem C3_duration_sum_witness :
    ∃ seq durs, broll_timeline 5 3 (fun _ => 0) 12 [1, 2] = Except.ok (seq, durs) ∧
      seq ≠ [] ∧
      durs.sum = 5 * ((seq.length : ℚ) - 1)
        + max (1 / 2) (12 - 5 * ((seq.length : ℚ) - 1)) ∧
      (1 / 2 ≤ 12 - 5 * ((seq.length : ℚ) - 1) → durs.sum = 12) :=
  C3_duration_sum 5 3 (fun _ => 0) 12 [1, 2] (by norm_num) (by decide) (by norm_num)

/-- C4 counterexample: pool of three distinct clips, cap 2, six slots
(equal to N * k = 6): the run with the constant index stream produces
[1, 2, 1, 2, 3, 1], using clip 1 three times - beyond the cap - so the
claim fails for slot counts of at most N * k. -/
theorem C4_counterexample :
    broll_timeline 5 2 (fun _ => 0) 30 [1, 2, 3]
        = Except.ok ([1, 2, 1, 2, 3, 1], [5, 5, 5, 5, 5, 5]) ∧
      ([1, 2, 1, 2, 3, 1] : List ℤ).length = 3 * 2 ∧
      2 < List.count (1 : ℤ) [1, 2, 1, 2, 3, 1] := by
  refine ⟨?_, by decide, by decide⟩
  refine broll_timeline_eval (n := 6) (by norm_num) rfl
    (carouselSlots_eq (by norm_num [Int.ceil_eq_iff]) (by norm_num)) (by decide) ?_
  norm_num [slotDur, List.range_succ, max_def]

/-- C4 amended: with a positive cap and a pool of N distinct clips, no clip
is ever assigned more than maxUses slots as long as the slot count is at
most (N - 1) * maxUses + 1 (below that bound the relaxation branch can
never fire; the counterexample shows the bound is sharp at N * maxUses). -/
theorem C4_usage_cap (switchSec : ℚ) (maxUses : ℕ) (rng : ℕ → ℕ) (totalSec : ℚ)
    (ids seq : List ℤ) (durs : List ℚ) (hk : 1 ≤ maxUses) (hnd : ids.Nodup)
    (hok : broll_timeline switchSec maxUses rng totalSec ids = Except.ok (seq, durs))
    (hlen : seq.length ≤ (ids.length - 1) * maxUses + 1) :
    ∀ v, seq.count v ≤ maxUses := by
  obtain ⟨hne, hs, -⟩ := broll_timeline_ok_inv hok
  have hlen2 := buildSeqAux_some_length hs
  refine buildSeqAux_count_le hnd hne hk (by simp) (by simp) ?_ hs
  simp only [List.length_nil, Nat.zero_add]
  omega

/-- C4 witness: a concrete three-slot run over three clips with cap 2 stays
within the cap. -/
theorem C4_usage_cap_witness : List.count (1 : ℤ) [1, 2, 1] ≤ 2 :=
  C4_usage_cap 5 2 (fun _ => 0) 15 [1, 2, 3] [1, 2, 1] [5, 5, 5] (by norm_num) (by decide)
    (by
      refine broll_timeline_eval (n := 3) (by norm_num) rfl
        (carouselSlots_eq (by norm_num [Int.ceil_eq_iff]) (by norm_num)) (by decide) ?_
      norm_num [slotDur, List.range_succ, max_def])
    (by decide) 1

/-- C5: for a pool of at least two distinct clips, no two consecutive
assignments of the carousel reference the same clip identifier, for every
random seed and slot count - the adjacency constraint survives the
relaxation branch, which only drops the usage cap. -/
theorem C5_no_adjacent_repeat (switchSec : ℚ) (maxUses : ℕ) (rng : ℕ → ℕ) (totalSec : ℚ)
    (ids seq : List ℤ) (durs : List ℚ) (_hnd : ids.Nodup) (_h2 : 2 ≤ ids.length)
    (hok : broll_timeline switchSec maxUses rng totalSec ids = Except.ok (seq, durs)) :
    seq.Chain' (· ≠ ·) := by
  obtain ⟨-, hs, -⟩ := broll_timeline_ok_inv hok
  exact buildSeqAux_chain List.chain'_nil hs

/-- C5 witness: the concrete run over two clips yields [1, 2, 1], with no
adjacent repetition. -/
theorem C5_no_adjacent_repeat_witness : List.Chain' (· ≠ ·) ([1, 2, 1] : List ℤ) :=
  C5_no_adjacent_repeat 5 1 (fun _ => 0) 15 [1, 2] [1, 2, 1] [5, 5, 5] (by decide) (by norm_num)
    (by
      refine broll_timeline_eval (n := 3) (by norm_num) rfl
        (carouselSlots_eq (by norm_num [Int.ceil_eq_iff]) (by norm_num)) (by decide) ?_
      norm_num [slotDur, List.range_succ, max_def])

/-- Characters kept by the tokenizer: the source replaces every character
outside [a-z0-9 ] (after lowercasing) with a space. -/
def isKeptChar (c : Char) : Bool :=
  (decide ('a' ≤ c) && decide (c ≤ 'z')) || (decide ('0' ≤ c) && decide (c ≤ '9'))
    || decide (c = ' ')

/-- Splitting a character list on spaces, keeping empty fragments (the
behaviour of string splitting on a single-space separator). -/
def splitOnSpace : List Char → List Char → List (List Char)
  | [], cur => [cur.reverse]
  | c :: rest, cur =>
    if c = ' ' then cur.reverse :: splitOnSpace rest [] else splitOnSpace rest (c :: cur)

/-- Tokenizer of the novelty filter: lowercase, strip to [a-z0-9 ], split on
whitespace, keep tokens of length at least 3. Replacing each stripped
character by a space and then splitting yields the same token list as the
regex substitution of the source, since empty fragments are shorter than 3
and dropped by the final filter. The character-list form of lowercasing and
splitting matches the position-based String functions of the library. -/
def tokWords (s : String) : List String :=
  (((splitOnSpace ((s.data.map Char.toLower).map (fun c => if isKeptChar c then c else ' '))
      []).map (fun cs => String.mk cs))).filter (fun w => 3 ≤ w.length)

/-- The set of contiguous trigrams (3-token windows joined by single
spaces); empty when fewer than 3 tokens exist. -/
def trigrams (ws : List String) : Finset String :=
  if 3 ≤ ws.length then
    ((List.range (ws.length - 2)).map
      (fun i => String.intercalate (" ") ((ws.drop i).take 3))).toFinset
  else ∅

/-- Fingerprint of a candidate narration: trigrams of the tokenized
concatenation of all sentences. -/
def sentencesFp (sentences : List String) : Finset String :=
  trigrams (tokWords (String.intercalate (" ") sentences))

/-- Jaccard similarity of two fingerprints, 0 when either is empty. -/
def jaccard (a b : Finset String) : ℚ :=
  if a = ∅ ∨ b = ∅ then 0
  else if (a ∪ b).card = 0 then 0
  else ((a ∩ b).card : ℚ) / ((a ∪ b).card : ℚ)

/-- Avoid-term collection from one intersecting trigram: tokens of length
at least 4 not yet collected, stopping at 12 terms. Whitespace splitting
drops empty fragments, as the split method of the source does. -/
def addTermsFromTri (terms : List String) (tri : String) : List String :=
  (((splitOnSpace tri.data []).map (fun cs => String.mk cs)).filter (fun w => w ≠ "")).foldl
    (fun ts w =>
      if 12 ≤ ts.length then ts
      else if 4 ≤ w.length ∧ w ∉ ts then ts ++ [w] else ts) terms

/-- Avoid terms surfaced on rejection: up to 12 distinct tokens drawn from
the first 40 intersecting trigrams. Python iterates the intersection in
unspecified set order; the model fixes the lexicographic order (no claim
depends on which intersecting tokens are surfaced). -/
def avoidTerms (cur fp : Finset String) : List String :=
  (((cur ∩ fp).sort (· ≤ ·)).take 40).foldl
    (fun ts tri => if 12 ≤ ts.length then ts else addTermsFromTri ts tri) []

/-- The scan of _novelty_ok over the stored fingerprints, most recent
first: the first stored fingerprint with similarity strictly above the
threshold rejects the candidate. -/
def noveltyScan (jmax : ℚ) (cur : Finset String) : List (Finset String) → Bool × List String
  | [] => (true, [])
  | fp :: rest =>
    if jmax < jaccard cur fp then (false, avoidTerms cur fp) else noveltyScan jmax cur rest

/-- Shallow embedding of _novelty_ok: NOVELTY_ENFORCE, NOVELTY_JACCARD_MAX
and the stored window of fingerprints are parameters. -/
def novelty_ok (enforce : Bool) (jmax : ℚ) (recentFps : List (Finset String))
    (sentences : List String) : Bool × List String :=
  if enforce = false then (true, [])
  else if sentencesFp sentences = ∅ then (true, [])
  else noveltyScan jmax (sentencesFp sentences) recentFps

/-- A scan over fingerprints none of which exceeds the threshold accepts. -/
lemma noveltyScan_true {jmax : ℚ} {cur : Finset String} :
    ∀ {l : List (Finset String)}, (∀ fp ∈ l, jaccard cur fp ≤ jmax) →
      (noveltyScan jmax cur l).1 = true := by
  intro l
  induction l with
  | nil => intro _; rfl
  | cons fp rest ih =>
    intro h
    unfold noveltyScan
    rw [if_neg (not_lt.mpr (h fp (List.mem_cons_self fp rest)))]
    exact ih (fun x hx => h x (List.mem_cons_of_mem fp hx))

/-- C6: the novelty filter rejects only on strict inequality. If every
stored fingerprint has Jaccard similarity at most the threshold - in
particular when one is exactly at the threshold - the candidate is
accepted. -/
theorem C6_threshold_strict (jmax : ℚ) (recentFps : List (Finset String))
    (sentences : List String)
    (h : ∀ fp ∈ recentFps, jaccard (sentencesFp sentences) fp ≤ jmax) :
    (novelty_ok true jmax recentFps sentences).1 = true := by
  unfold novelty_ok
  rw [if_neg (by simp)]
  split
  · rfl
  · exact noveltyScan_true h

/-- A concrete 13-token narration used to exercise the threshold boundary
(its fingerprint has exactly 11 trigrams). -/
def boundarySentence : String :=
  "alpha bravo charlie delta echo foxtrot golf hotel india juliet kilo lima mike"

/-- A stored fingerprint agreeing with the candidate on all 11 of its
trigrams plus 9 extra entries, so the Jaccard similarity is exactly
11/20 - the default threshold NOVELTY_JACCARD_MAX = 0.55. -/
def boundaryStored : Finset String :=
  sentencesFp [boundarySentence] ∪
    (["x1", "x2", "x3", "x4", "x5", "x6", "x7", "x8", "x9"].toFinset)

/-- C6 witness: a candidate whose similarity to the stored fingerprint is
exactly the threshold 0.55 is accepted. -/
theorem C6_threshold_strict_witness :
    (novelty_ok true (11 / 20) [boundaryStored] [boundarySentence]).1 = true := by
  refine C6_threshold_strict (11 / 20) [boundaryStored] [boundarySentence] ?_
  intro fp hfp
  rw [List.mem_singleton.mp hfp]
  unfold jaccard
  rw [if_neg (by decide), if_neg (by decide)]
  rw [show (sentencesFp [boundarySentence] ∩ boundaryStored).card = 11 by decide]
  rw [show (sentencesFp [boundarySentence] ∪ boundaryStored).card = 20 by decide]
  norm_num

/-- The fingerprint persisted on script acceptance: the trigram set is
sorted lexicographically and truncated to at most 500 entries before being
recorded (main: fp = sorted(list(_sentences_fp(sentences)))[:500]). -/
def recordedFp (sentences : List String) : List String :=
  ((sentencesFp sentences).sort (· ≤ ·)).take 500

/-- C10: the persisted fingerprint is the sorted trigram list truncated to
500 entries: it is sorted, holds min(500, n) of the n true trigrams, each
recorded entry is a true trigram, and whenever the narration has more than
500 trigrams the recorded fingerprint misses at least one of them, so later
Jaccard comparisons run against a strict subset of the true fingerprint. -/
theorem C10_recorded_fingerprint (sentences : List String) :
    (recordedFp sentences).length = min 500 (sentencesFp sentences).card ∧
      (recordedFp sentences).Sorted (· ≤ ·) ∧
      (∀ t ∈ recordedFp sentences, t ∈ sentencesFp sentences) ∧
      (500 < (sentencesFp sentences).card →
        ∃ t ∈ sentencesFp sentences, t ∉ recordedFp sentences) := by
  refine ⟨?_, ?_, ?_, ?_⟩
  · unfold recordedFp
    rw [List.length_take, Finset.length_sort]
  · exact List.Pairwise.sublist (List.take_sublist _ _) (Finset.sort_sorted (· ≤ ·) _)
  · intro t ht
    have := List.take_subset 500 _ ht
    exact (Finset.mem_sort (α := String) (· ≤ ·)).mp this
  · intro hbig
    by_contra hall
    push_neg at hall
    have hsub : sentencesFp sentences ⊆ (recordedFp sentences).toFinset := by
      intro t ht
      exact List.mem_toFinset.mpr (hall t ht)
    have h1 := Finset.card_le_card hsub
    have h2 := List.toFinset_card_le (recordedFp sentences)
    have h3 : (recordedFp sentences).length = min 500 (sentencesFp sentences).card := by
      unfold recordedFp
      rw [List.length_take, Finset.length_sort]
    omega

/-- Shallow embedding of _entity_in_cooldown. The entity store (a JSON
dictionary mapping entity keys to last-touch timestamps) is an association
list, wall-clock time a parameter. The source returns false for an empty
key or non-positive days, for a missing key, and - through the falsy test
on the stored value - for a stored timestamp of exactly zero. -/
def entity_in_cooldown (now : ℚ) (ents : List (String × ℚ)) (key : String) (days : ℤ) : Bool :=
  if key = "" ∨ days ≤ 0 then false
  else
    match ents.lookup key with
    | none => false
    | some ts => if ts = 0 then false else decide (now - ts < (days : ℚ) * 86400)

/-- C8 counterexample: for a stored last-touch timestamp of exactly 0 the
source's falsy test returns false even though the claimed age condition
now - last_touch < days * 86400 holds (now = 100, days = 30), so the
claimed two-sided characterisation fails as stated. -/
theorem C8_counterexample :
    entity_in_cooldown 100 [("history:rome", 0)] "history:rome" 30 = false ∧
      (100 : ℚ) - 0 < ((30 : ℤ) : ℚ) * 86400 := by
  constructor
  · unfold entity_in_cooldown
    rw [if_neg (by decide)]
    have hl : List.lookup "history:rome" [("history:rome", (0 : ℚ))] = some 0 := rfl
    simp only [hl]
    rw [if_pos trivial]
  · norm_num

/-- C8 amended: false whenever the key is empty or days is non-positive;
and for a key with a recorded non-zero last-touch timestamp, the result is
true exactly when now - last_touch < days * 86400 - so false at an age of
exactly days * 86400 seconds and true one second earlier. A missing or
zero (falsy) stored timestamp additionally yields false, which the claim
as stated overlooks. -/
theorem C8_cooldown_boundary (now : ℚ) (ents : List (String × ℚ)) (key : String) (days : ℤ)
    (ts : ℚ) (hkey : key ≠ "") (hdays : 0 < days) (hts : ents.lookup key = some ts)
    (hts0 : ts ≠ 0) :
    (entity_in_cooldown now ents key days = true ↔ now - ts < (days : ℚ) * 86400) ∧
      (now - ts = (days : ℚ) * 86400 → entity_in_cooldown now ents key days = false) ∧
      (now - ts = (days : ℚ) * 86400 - 1 → entity_in_cooldown now ents key days = true) := by
  have hmain : entity_in_cooldown now ents key days
      = decide (now - ts < (days : ℚ) * 86400) := by
    unfold entity_in_cooldown
    rw [if_neg (not_or.mpr ⟨hkey, not_le.mpr hdays⟩)]
    simp only [hts]
    rw [if_neg hts0]
  refine ⟨?_, ?_, ?_⟩
  · rw [hmain]
    exact decide_eq_true_iff
  · intro heq
    rw [hmain]
    rw [decide_eq_false_iff_not]
    rw [heq]
    exact lt_irrefl _
  · intro heq
    rw [hmain]
    rw [decide_eq_true_iff]
    rw [heq]
    linarith

/-- C8 witness: with last touch at 50 and a 30-day window, the cooldown is
off at now = 2592050 (age exactly 2592000 s) and on at 2592049. -/
theorem C8_cooldown_boundary_witness :
    entity_in_cooldown 2592050 [("history:rome", 50)] "history:rome" 30 = false ∧
      entity_in_cooldown 2592049 [("history:rome", 50)] "history:rome" 30 = true := by
  constructor
  · exact (C8_cooldown_boundary 2592050 [("history:rome", 50)] "history:rome" 30 50
      (by decide) (by norm_num) rfl (by norm_num)).2.1 (by norm_num)
  · exact (C8_cooldown_boundary 2592049 [("history:rome", 50)] "history:rome" 30 50
      (by decide) (by norm_num) rfl (by norm_num)).2.2 (by norm_num)

/-- The two fatal resource-exhaustion errors of the orchestrator. -/
inductive StageError where
  | noSuitableClips
  | poolEmptyAfterDownloads
deriving DecidableEq, Repr

/-- The download loop of main: each pool entry is fetched independently
(fetch i is none when the download of the i-th entry raises, otherwise the
downloaded size); an entry enters the downloads dictionary only when the
fetch succeeded and the file is larger than 300000 bytes. -/
def successfulDownloads (pool : List (ℤ × String)) (fetch : ℕ → Option ℤ) : List ℤ :=
  pool.enum.filterMap (fun p =>
    match fetch p.1 with
    | none => none
    | some size => if 300000 < size then some p.2.1 else none)

/-- The pool and download stages of main: raise exactly on an empty pool
(after all provider fallbacks) or when no download succeeds. -/
def clipAcquisition (pool : List (ℤ × String)) (fetch : ℕ → Option ℤ) :
    Except StageError (List ℤ) :=
  if pool.isEmpty then Except.error StageError.noSuitableClips
  else if (successfulDownloads pool fetch).isEmpty then
    Except.error StageError.poolEmptyAfterDownloads
  else Except.ok (successfulDownloads pool fetch)

/-- C9: the two clip-acquisition stages of main abort with a raised error
exactly when the pool is empty after all fallbacks or when zero downloads
succeed; in every other case they return normally. The second equivalence
spells out that zero downloads succeed exactly when every fetched entry
either raised or stayed at or below the 300000-byte threshold. -/
theorem C9_abort_conditions (pool : List (ℤ × String)) (fetch : ℕ → Option ℤ) :
    ((∃ e, clipAcquisition pool fetch = Except.error e) ↔
      pool = [] ∨ successfulDownloads pool fetch = []) ∧
      (successfulDownloads pool fetch = [] ↔
        ∀ i, i < pool.length → ∀ sz, fetch i = some sz → sz ≤ 300000) := by
  constructor
  · unfold clipAcquisition
    by_cases hp : pool.isEmpty
    · rw [if_pos hp]
      simp only [List.isEmpty_iff] at hp
      exact ⟨fun _ => Or.inl hp, fun _ => ⟨StageError.noSuitableClips, rfl⟩⟩
    · rw [if_neg hp]
      by_cases hd : (successfulDownloads pool fetch).isEmpty
      · rw [if_pos hd]
        simp only [List.isEmpty_iff] at hd
        exact ⟨fun _ => Or.inr hd, fun _ => ⟨StageError.poolEmptyAfterDownloads, rfl⟩⟩
      · rw [if_neg hd]
        simp only [List.isEmpty_iff] at hp hd
        constructor
        · rintro ⟨e, he⟩
          cases he
        · rintro (h | h)
          · exact absurd h hp
          · exact absurd h hd
  · unfold successfulDownloads
    rw [List.filterMap_eq_nil_iff]
    constructor
    · intro h i hi sz hsz
      have hmem : (i, pool.get ⟨i, hi⟩) ∈ pool.enum := by
        rw [List.mk_mem_enum_iff_getElem?]
        exact (List.getElem?_eq_getElem hi).trans (by rw [List.get_eq_getElem])
      have hx := h _ hmem
      simp only [hsz] at hx
      by_contra hgt
      rw [if_pos (by omega)] at hx
      cases hx
    · intro h p hp
      obtain ⟨i, x⟩ := p
      rw [List.mk_mem_enum_iff_getElem?] at hp
      have hi : i < pool.length := by
        by_contra hge
        rw [List.getElem?_eq_none (by omega)] at hp
        cases hp
      cases hf : fetch i with
      | none => simp only [hf]
      | some sz =>
        have hle := h i hi sz hf
        simp only [hf]
        rw [if_neg (by omega)]

/-- A stock-footage candidate as returned by the provider fetch helpers
(which already apply the orientation and duration filters): identifier,
download link, width, height, duration in seconds. -/
structure Clip where
  vid : ℤ
  link : String
  width : ℤ
  height : ℤ
  dur : ℚ
deriving DecidableEq, Repr

/-- Alphanumeric tokens of a lowercased string (the findall regex of the
ranking helper): non-alphanumeric characters separate tokens and empty
fragments are dropped. -/
def alnumTokens (s : String) : List String :=
  ((splitOnSpace ((s.data.map Char.toLower).map (fun c => if isKeptChar c then c else ' '))
      []).map (fun cs => String.mk cs)).filter (fun w => w ≠ "")

/-- Ranking score of a candidate for a query token set: link-token overlap
doubled, plus a duration sweet-spot bonus and a resolution bonus. -/
def clipScore (c : Clip) (qtokens : Finset String) : ℚ :=
  (((alnumTokens c.link).toFinset ∩ qtokens).card : ℚ) * 2
    + (if 2 ≤ c.dur ∧ c.dur ≤ 12 then 1 else 0) + (if 1440 ≤ c.height then 1 else 0)

/-- Deduplication by clip id keeping first occurrences (the seen-set loop
of the source). -/
def dedupByFst : List (ℤ × String) → List ℤ → List (ℤ × String)
  | [], _ => []
  | (v, l) :: rest, seen =>
    if v ∈ seen then dedupByFst rest seen else (v, l) :: dedupByFst rest (v :: seen)

/-- Shallow embedding of _rank_and_dedup: candidates whose id is in the
retention blocklist or in the already-chosen runtime set are dropped, the
rest are ranked by score (descending, stable - the output of any stable
sort under the same key order equals the output of the stable list sort of
the source) and deduplicated by id. -/
def rank_and_dedup (items : List Clip) (qtokens : Finset String) (block : Finset ℤ)
    (used : Finset ℤ) : List (ℤ × String) :=
  dedupByFst
    ((List.insertionSort (fun a b : ℚ × ℤ × String => b.1 ≤ a.1)
        ((items.filter (fun c => !(decide (c.vid ∈ block) || decide (c.vid ∈ used)))).map
          (fun c => (clipScore c qtokens, c.vid, c.link)))).map
      (fun t => (t.2.1, t.2.2)))
    []

/-- The page loop of the pool builder: accumulate up to three pages,
stopping early once the accumulated list reaches the cap. -/
def pagesFetch (f : ℕ → List Clip) (cap : ℕ) : List ℕ → List Clip → List Clip
  | [], acc => acc
  | p :: ps, acc =>
    if cap ≤ (acc ++ f p).length then acc ++ f p else pagesFetch f cap ps (acc ++ f p)

/-- The query loop of build_pexels_pool: fetch up to three pages per query,
rank, take the top max(3, need / 2), and stop once the pool reaches
2 * need. -/
def poolFromQueries (searchFn : String → ℕ → List Clip) (block used : Finset ℤ) (need : ℕ) :
    List String → List (ℤ × String) → List (ℤ × String)
  | [], pool => pool
  | q :: qs, pool =>
    let ranked := rank_and_dedup (pagesFetch (searchFn q) (need * 3) [1, 2, 3] [])
      ((alnumTokens q).toFinset) block used
    let pool2 := pool ++ ranked.take (max 3 (need / 2))
    if need * 2 ≤ pool2.length then pool2
    else poolFromQueries searchFn block used need qs pool2

/-- The final stage of build_pexels_pool: dedup by id, partition into fresh
(not blocklisted) and previously-used (blocklisted) ids, fresh first, and
truncate to max(need, scene count). -/
def finalizePool (block : Finset ℤ) (sceneCount need : ℕ)
    (pool : List (ℤ × String)) : List (ℤ × String) :=
  ((dedupByFst pool []).filter (fun x => decide (x.1 ∉ block))
      ++ (dedupByFst pool []).filter (fun x => decide (x.1 ∈ block))).take (max need sceneCount)

/-- Shallow embedding of build_pexels_pool. The provider calls are
parameters: searchFn query page, popularFn page and pixabayFn query need
return the already-filtered candidates; the query list (merged per-scene
and topic queries) and the blocklist are inputs. -/
def build_pexels_pool (searchFn : String → ℕ → List Clip) (popularFn : ℕ → List Clip)
    (pixabayFn : String → ℕ → List (ℤ × String)) (block used : Finset ℤ)
    (queries : List String) (fallbackQ : String) (sceneCount need : ℕ) : List (ℤ × String) :=
  let pool1 := poolFromQueries searchFn block used need queries []
  let pool2 :=
    if pool1.length < need then
      pool1 ++ (rank_and_dedup (pagesFetch popularFn (need * 3) [1, 2, 3] []) ∅ block used).take
        (need * 2 - pool1.length)
    else pool1
  let pool3 :=
    if pool2.length < need then
      pool2 ++ pixabayFn ((queries.getLast?).getD fallbackQ) (need - pool2.length)
    else pool2
  finalizePool block sceneCount need pool3

/-- Deduplication only removes entries. -/
lemma mem_dedupByFst {x : ℤ × String} :
    ∀ {l : List (ℤ × String)} {seen : List ℤ}, x ∈ dedupByFst l seen → x ∈ l := by
  intro l
  induction l with
  | nil => intro seen h; cases h
  | cons p rest ih =>
    intro seen h
    obtain ⟨v, s⟩ := p
    unfold dedupByFst at h
    split at h
    · exact List.mem_cons_of_mem _ (ih h)
    · rcases List.mem_cons.mp h with h | h
      · exact List.mem_cons.mpr (Or.inl h)
      · exact List.mem_cons_of_mem _ (ih h)

/-- Every entry surviving _rank_and_dedup is neither blocklisted nor
already chosen in this run. -/
lemma rank_and_dedup_not_blocked {items : List Clip} {qtokens : Finset String}
    {block used : Finset ℤ} {x : ℤ × String}
    (h : x ∈ rank_and_dedup items qtokens block used) : x.1 ∉ block ∧ x.1 ∉ used := by
  unfold rank_and_dedup at h
  have h1 := mem_dedupByFst h
  obtain ⟨t, ht, hx⟩ := List.mem_map.mp h1
  have h2 := (List.perm_insertionSort _ _).mem_iff.mp ht
  obtain ⟨c, hc, hct⟩ := List.mem_map.mp h2
  have h3 := (List.mem_filter.mp hc).2
  simp only [Bool.not_eq_true', Bool.or_eq_false_iff, decide_eq_false_iff_not] at h3
  rw [← hx, ← hct]
  exact h3

/-- The final pool is a truncated fresh-then-blocklisted partition. -/
lemma finalizePool_structure (block : Finset ℤ) (sceneCount need : ℕ)
    (pool : List (ℤ × String)) :
    ∃ fresh rest : List (ℤ × String), finalizePool block sceneCount need pool
        = (fresh ++ rest).take (max need sceneCount) ∧
      (∀ x ∈ fresh, x.1 ∉ block) ∧ (∀ x ∈ rest, x.1 ∈ block) := by
  refine ⟨(dedupByFst pool []).filter (fun x => decide (x.1 ∉ block)),
    (dedupByFst pool []).filter (fun x => decide (x.1 ∈ block)), rfl, ?_, ?_⟩
  · intro x hx
    exact of_decide_eq_true (List.mem_filter.mp hx).2
  · intro x hx
    exact of_decide_eq_true (List.mem_filter.mp hx).2

/-- C7 counterexample: a blocklisted id returned by the primary provider is
hard-excluded by the ranking stage, never reaching the final pool - with
blocklist {5}, a provider that returns clip 5 for every query and page, and
empty fallbacks, the final pool is empty rather than ending with clip 5.
This contradicts the claim that every blocklisted provider candidate can
still appear in the final pool. -/
theorem C7_counterexample :
    build_pexels_pool (fun _ _ => [⟨5, "u", 1080, 1920, 5⟩]) (fun _ => []) (fun _ _ => [])
      ({5} : Finset ℤ) ∅ [("nature")] ("city") 1 1 = [] := by
  decide

/-- C7 amended: blocklisted ids from the primary provider are excluded,
not merely deprioritized, by _rank_and_dedup; only the secondary-provider
fallback can reintroduce blocklisted ids into the pool, and the final pool
is the deduplicated list partitioned fresh-first / blocklisted-last and
truncated to max(need, scene count). -/
theorem C7_blocklist_handling (items : List Clip) (qtokens : Finset String)
    (searchFn : String → ℕ → List Clip) (popularFn : ℕ → List Clip)
    (pixabayFn : String → ℕ → List (ℤ × String)) (block used : Finset ℤ)
    (queries : List String) (fallbackQ : String) (sceneCount need : ℕ) :
    (∀ x ∈ rank_and_dedup items qtokens block used, x.1 ∉ block ∧ x.1 ∉ used) ∧
      (build_pexels_pool searchFn popularFn pixabayFn block used queries fallbackQ
          sceneCount need).length ≤ max need sceneCount ∧
      ∃ fresh rest : List (ℤ × String),
        build_pexels_pool searchFn popularFn pixabayFn block used queries fallbackQ
            sceneCount need = (fresh ++ rest).take (max need sceneCount) ∧
          (∀ x ∈ fresh, x.1 ∉ block) ∧ (∀ x ∈ rest, x.1 ∈ block) := by
  refine ⟨fun x hx => rank_and_dedup_not_blocked hx, ?_, ?_⟩
  · unfold build_pexels_pool finalizePool
    rw [List.length_take]
    exact min_le_left _ _
  · exact finalizePool_structure block sceneCount need _

end Autoshorts
